import Mathlib

set_option maxHeartbeats 1000000

/-!
Verification development for the managecommand execution agent
(src/djangocommand/executor.py, src/djangocommand/agent.py).

Embedding conventions:
* Python `str` content flowing through the line buffers is embedded as `List Char`;
  status strings and identifiers are embedded as `String`.
* The wall clock (`time.time()`) is embedded as a `Nat` supplied by the caller:
  each `append` call receives the clock value observed during that call.
* Mutation is embedded as explicit state passing; every lock-protected critical
  section of the source becomes one atomic step of the corresponding model.
-/

/-- A flushed output segment: the dict with keys `timestamp` and `content`
built by `LineBuffer.flush` (executor.py:66-92).  `timestamp = none` embeds
Python `None`. -/
structure Segment where
  timestamp : Option Nat
  content : List Char
  deriving DecidableEq

/-- State of `LineBuffer` (executor.py:33-64): completed `(timestamp, content)`
lines plus the currently open line's timestamp and content. -/
structure LineBuffer where
  is_stderr : Bool
  completed_lines : List (Nat × List Char)
  current_line_timestamp : Option Nat
  current_line_content : List Char
  deriving DecidableEq

/-- `LineBuffer.__init__` (executor.py:41-46). -/
def LineBuffer.init (is_stderr : Bool) : LineBuffer :=
  { is_stderr := is_stderr
    completed_lines := []
    current_line_timestamp := none
    current_line_content := [] }

/-- One iteration of the per-character loop of `LineBuffer.append`
(executor.py:55-64): if no line is open, stamp it with the current time;
append the character; on a newline push the completed line and reset. -/
def LineBuffer.appendChar (b : LineBuffer) (now : Nat) (c : Char) : LineBuffer :=
  let ts := b.current_line_timestamp.getD now
  let content := b.current_line_content ++ [c]
  if c = '\n' then
    { b with
      completed_lines := b.completed_lines ++ [(ts, content)]
      current_line_timestamp := none
      current_line_content := [] }
  else
    { b with
      current_line_timestamp := some ts
      current_line_content := content }

/-- `LineBuffer.append` (executor.py:48-64); `now` is the clock value
observed by `time.time()` during this call. -/
def LineBuffer.append (b : LineBuffer) (now : Nat) (content : List Char) : LineBuffer :=
  content.foldl (fun acc c => acc.appendChar now c) b

/-- `LineBuffer.flush` (executor.py:66-92): drain completed lines as segments,
then append the partial line (if non-empty) as a final segment, clearing its
content and setting its timestamp to `None`. -/
def LineBuffer.flush (b : LineBuffer) : List Segment × LineBuffer :=
  let segments := b.completed_lines.map (fun p => { timestamp := some p.1, content := p.2 })
  if b.current_line_content = [] then
    (segments, { b with completed_lines := [] })
  else
    (segments ++ [{ timestamp := b.current_line_timestamp, content := b.current_line_content }],
     { b with completed_lines := [], current_line_timestamp := none, current_line_content := [] })

/-- A client-visible operation on one `LineBuffer`: an `append` (with the clock
value observed during the call) or a `flush`. -/
inductive LBOp where
  | appendOp (now : Nat) (content : List Char)
  | flushOp
  deriving DecidableEq

/-- Apply one operation, returning the new buffer and the segments this
operation returned (empty for `append`). -/
def LineBuffer.runOp (b : LineBuffer) : LBOp → LineBuffer × List Segment
  | LBOp.appendOp now content => (b.append now content, [])
  | LBOp.flushOp =>
      let r := b.flush
      (r.2, r.1)

/-- Run a sequence of `append`/`flush` operations, collecting every segment
returned by every flush, in order. -/
def runLB (b : LineBuffer) : List LBOp → LineBuffer × List Segment
  | [] => (b, [])
  | op :: ops =>
      let r := b.runOp op
      let rest := runLB r.1 ops
      (rest.1, r.2 ++ rest.2)

/-- All content handed to `append` across an operation sequence, concatenated. -/
def appendedContent : List LBOp → List Char
  | [] => []
  | LBOp.appendOp _ c :: ops => c ++ appendedContent ops
  | LBOp.flushOp :: ops => appendedContent ops

/-- Everything currently held inside a buffer: completed line contents then the
open line's content. -/
def LineBuffer.bufContent (b : LineBuffer) : List Char :=
  (b.completed_lines.map (fun p => p.2)).flatten ++ b.current_line_content

/-- Concatenated content of a list of segments. -/
def segsContent (l : List Segment) : List Char :=
  (l.map (fun s => s.content)).flatten

/-- An output chunk handed to `client.send_output`: sequence number, stream
flag and segments (executor.py:146-152). -/
structure Chunk where
  chunk_number : Nat
  is_stderr : Bool
  segments : List Segment
  deriving DecidableEq

/-- State of `OutputStreamManager` (executor.py:95-117): one `LineBuffer` per
stream and the execution-scoped chunk counter, which starts at 0. -/
structure OutputStreamManager where
  stdout_buffer : LineBuffer
  stderr_buffer : LineBuffer
  chunk_number : Nat
  deriving DecidableEq

/-- `OutputStreamManager.__init__` (executor.py:103-117). -/
def OutputStreamManager.start : OutputStreamManager :=
  { stdout_buffer := LineBuffer.init false
    stderr_buffer := LineBuffer.init true
    chunk_number := 0 }

/-- `OutputStreamManager.append` (executor.py:119-124): route content to the
matching buffer. -/
def OutputStreamManager.append (m : OutputStreamManager) (now : Nat)
    (content : List Char) (is_stderr : Bool) : OutputStreamManager :=
  if is_stderr then { m with stderr_buffer := m.stderr_buffer.append now content }
  else { m with stdout_buffer := m.stdout_buffer.append now content }

/-- The per-buffer body of `OutputStreamManager._flush` (executor.py:139-156):
drain the buffer; if the segments are non-empty, increment the shared counter
under the manager's lock and emit one chunk carrying the new number.  A
`send_output` failure is logged and not retried, so it does not affect the
emitted chunk or the counter. -/
def OutputStreamManager.flushBuffer (chunkn : Nat) (buf : LineBuffer) :
    Nat × List Chunk × LineBuffer :=
  let r := buf.flush
  if r.1 = [] then (chunkn, [], r.2)
  else (chunkn + 1, [{ chunk_number := chunkn + 1, is_stderr := buf.is_stderr, segments := r.1 }], r.2)

/-- `OutputStreamManager._flush` (executor.py:137-156): stdout buffer first,
then stderr, both drawing numbers from the one shared counter. -/
def OutputStreamManager.flushStep (m : OutputStreamManager) :
    OutputStreamManager × List Chunk :=
  let r1 := OutputStreamManager.flushBuffer m.chunk_number m.stdout_buffer
  let r2 := OutputStreamManager.flushBuffer r1.1 m.stderr_buffer
  ({ stdout_buffer := r1.2.2, stderr_buffer := r2.2.2, chunk_number := r2.1 },
   r1.2.1 ++ r2.2.1)

/-- A client-visible operation on one `OutputStreamManager`: an `append` from
a reader thread or one tick of the periodic flush loop (the final flush in
`finalize` is the same `_flush` body). -/
inductive OSMOp where
  | appendOp (now : Nat) (content : List Char) (is_stderr : Bool)
  | flushOp
  deriving DecidableEq

def OutputStreamManager.runOp (m : OutputStreamManager) :
    OSMOp → OutputStreamManager × List Chunk
  | OSMOp.appendOp now content is_stderr => (m.append now content is_stderr, [])
  | OSMOp.flushOp => m.flushStep

/-- Run a sequence of manager operations, collecting every emitted chunk in
emission order. -/
def runOSM (m : OutputStreamManager) : List OSMOp → OutputStreamManager × List Chunk
  | [] => (m, [])
  | op :: ops =>
      let r := m.runOp op
      let rest := runOSM r.1 ops
      (rest.1, r.2 ++ rest.2)

/-- `ExecutionResult` (executor.py:26-30). -/
structure ExecutionResult where
  exit_code : Int
  status : String
  deriving DecidableEq

/-- Observable actions of one execution, as seen by the control-plane client,
the OS process boundary and the Active Execution Set. -/
inductive Event where
  | startExecution (execution_id : String)
  | sendOutput (execution_id : String) (contents : List String) (is_stderr : Bool) (chunk_number : Nat)
  | completeExecution (execution_id : String) (exit_code : Int) (status : String)
  | spawnProcess (command : String)
  | sigterm
  | sigkill
  | finalizeStream
  | insertActive (execution_id : String)
  | removeActive (execution_id : String)
  deriving DecidableEq

/-- Environment of one `CommandExecutor.execute` call: which of the code's
branch conditions the arguments, the process and the concurrent cancel thread
realize.  `splitRaises`: `shlex.split(args)` (executor.py:221) raises
`ValueError` because the args string has an unbalanced quote — this happens
before the `try` at executor.py:227, so the exception escapes `execute`;
`spawnRaises`: `subprocess.Popen` raises; `exitsWithinTimeout`: `process.wait
(timeout=timeout)` returns instead of raising `TimeoutExpired`; `exitCode`:
the process's own exit code when it exits; `cancelDuringRun`: the cancellation
watcher calls `cancel` between the reset of the flag and the post-wait check;
`exitsOnTerm`: after SIGTERM the process exits within the 5s grace period. -/
structure ExecEnv where
  splitRaises : Bool
  spawnRaises : Bool
  exitsWithinTimeout : Bool
  exitCode : Int
  cancelDuringRun : Bool
  exitsOnTerm : Bool
  deriving DecidableEq

/-- Mutable fields of `CommandExecutor` (executor.py:183-184): whether
`self.process` is non-`None`, and the cancellation flag. -/
structure CommandExecutorState where
  processSome : Bool
  cancelled : Bool
  deriving DecidableEq

/-- Whether the underlying process is running after a call returns.  SIGKILL
is modelled as always effective (the source waits on it, executor.py:339). -/
inductive ProcState where
  | running
  | exited
  | neverSpawned
  deriving DecidableEq

/-- `CommandExecutor._kill_process` (executor.py:320-341): no-op when no
process; with `sigkill` send SIGKILL at once; otherwise SIGTERM, wait up to
the grace period, and SIGKILL if the process is still alive. -/
def CommandExecutor.killProcessRun (processSome : Bool) (env : ExecEnv)
    (sigkill : Bool) : List Event :=
  if processSome = false then []
  else if sigkill then [Event.sigkill]
  else if env.exitsOnTerm then [Event.sigterm]
  else [Event.sigterm, Event.sigkill]

/-- What a `CommandExecutor.execute` call produces: its event trace, the
returned `ExecutionResult`, the exception escaping the call (`raised`, the
uncaught `ValueError` from `shlex.split`; when it is `some`, the call never
returns and no `ExecutionResult` is produced — `result` holds an unread
placeholder and callers must consult `raised` first), the process state after
the call, and the executor state afterwards (the `finally` at
executor.py:286-287 clears the handle on every path that entered the `try`;
it does not run when `shlex.split` raises before the `try`). -/
structure ExecOutcome where
  events : List Event
  result : ExecutionResult
  raised : Option String
  procState : ProcState
  finalState : CommandExecutorState
  deriving DecidableEq

/-- `CommandExecutor.execute` (executor.py:187-287).  Control flow: reset the
cancellation flag (206); build the command line — `shlex.split(args)` (221)
runs OUTSIDE the `try` (227), so a `ValueError` on an unbalanced quote escapes
`execute` before anything is spawned, started or sent, and the `finally`
(286-287) does not run; otherwise spawn (230) — on any exception inside the
`try` finalize and return `(-1, failed)` (281-284); on `TimeoutExpired`
escalate terminate-then-kill, finalize, return `(-1, timed_out)` (259-263);
otherwise finalize, check the cancellation flag under its lock and return
`(exit_code, cancelled)` if set (273-275), else `(exit_code, success/failed)`
by exit code (278-279).  The `finally` clears the process handle on every
path that entered the `try`. -/
def CommandExecutor.execute (s : CommandExecutorState) (env : ExecEnv)
    (command : String) : ExecOutcome :=
  let s1 : CommandExecutorState := { s with cancelled := false }
  if env.splitRaises then
    { events := []
      result := { exit_code := -1, status := "failed" }
      raised := some "ValueError"
      procState := ProcState.neverSpawned
      finalState := s1 }
  else if env.spawnRaises then
    { events := [Event.finalizeStream]
      result := { exit_code := -1, status := "failed" }
      raised := none
      procState := ProcState.neverSpawned
      finalState := { processSome := false, cancelled := s1.cancelled } }
  else if env.exitsWithinTimeout = false then
    { events := [Event.spawnProcess command]
          ++ CommandExecutor.killProcessRun true env false
          ++ [Event.finalizeStream]
      result := { exit_code := -1, status := "timed_out" }
      raised := none
      procState := ProcState.exited
      finalState := { processSome := false, cancelled := s1.cancelled || env.cancelDuringRun } }
  else
    let cancelledAtCheck := s1.cancelled || env.cancelDuringRun
    if cancelledAtCheck then
      { events := [Event.spawnProcess command, Event.finalizeStream]
        result := { exit_code := env.exitCode, status := "cancelled" }
        raised := none
        procState := ProcState.exited
        finalState := { processSome := false, cancelled := cancelledAtCheck } }
    else
      { events := [Event.spawnProcess command, Event.finalizeStream]
        result := { exit_code := env.exitCode
                    status := if env.exitCode = 0 then "success" else "failed" }
        raised := none
        procState := ProcState.exited
        finalState := { processSome := false, cancelled := cancelledAtCheck } }

/-- `CommandExecutor.cancel` (executor.py:302-318): set the cancellation flag
under its lock; if no process handle exists return; otherwise escalate with
SIGKILL immediately when `force`, else SIGTERM-then-SIGKILL. -/
def CommandExecutor.cancel (s : CommandExecutorState) (env : ExecEnv)
    (force : Bool) : CommandExecutorState × List Event :=
  let s1 : CommandExecutorState := { s with cancelled := true }
  if s1.processSome = false then (s1, [])
  else (s1, CommandExecutor.killProcessRun s1.processSome env force)

/-- Environment of one per-item worker run (`Agent._run_execution`,
agent.py:209-286): the security verdict for the command and which control-plane
calls raise `DjangoCommandClientError`.  Raising calls are still invoked (the
invocation event is recorded); the exception is then caught where the source
catches it. -/
structure WorkerEnv where
  allowed : Bool
  reason : String
  startRaises : Bool
  sendRaises : Bool
  completeRaises : Bool
  execEnv : ExecEnv
  deriving DecidableEq

/-- A single-quote character, kept out of string literals. -/
def squote : String := String.singleton (Char.ofNat 39)

/-- Leading part of the rejection message (agent.py:303-307), up to and
including the `Reason: ` label. -/
def rejectionHead (command : String) : String :=
  "Command " ++ squote ++ command ++ squote
    ++ " rejected by agent security policy.\nReason: "

/-- Trailing part of the rejection message (agent.py:307-310), from the
newline after the reason to the end. -/
def rejectionTail (command : String) : String :=
  "\n\nTo allow this command, update your Django settings:\n  DJANGOCOMMAND_ALLOWED_COMMANDS = ("
    ++ squote ++ command ++ squote
    ++ ", ...)\nor remove it from DJANGOCOMMAND_DISALLOWED_COMMANDS.\n"

/-- The `error_message` built by `Agent._reject_execution` (agent.py:303-310). -/
def rejectionMessage (command reason : String) : String :=
  rejectionHead command ++ (reason ++ rejectionTail command)

/-- `Agent._reject_execution` (agent.py:288-330): `start_execution`; if it
raises, log and return (298-300).  Otherwise send the rejection message as one
stderr segment with chunk number 1 (312-317; a send failure is caught, 318),
then `complete_execution(-1, failed)` (322-327; a failure is caught, 329). -/
def Agent.rejectExecutionRun (env : WorkerEnv) (execution_id command : String) :
    List Event :=
  if env.startRaises then [Event.startExecution execution_id]
  else
    [Event.startExecution execution_id,
     Event.sendOutput execution_id [rejectionMessage command env.reason] true 1,
     Event.completeExecution execution_id (-1) "failed"]

/-- What one per-item worker run produces: its event trace and the exception,
if any, escaping the worker function to its caller (the thread pool). -/
structure WorkerOutcome where
  events : List Event
  escaped : Option String
  deriving DecidableEq

/-- `Agent._run_execution` (agent.py:209-286).  Security check first (223):
if disallowed, delegate to `_reject_execution` and return — the Active
Execution Set is never touched and no process is spawned.  If allowed: insert
the executor into the set under the lock (237-238); inside `try`:
`start_execution` (243) — a client error is caught and the worker returns
early (244-246); run `CommandExecutor.execute` on a fresh executor
(231-234, 258-263).  The `try` has no `except` clause, only a `finally`: if
`execute` raises (the uncaught `ValueError` from `shlex.split`), the
exception propagates past the completion report — `complete_execution` is
never invoked — and escapes `_run_execution`; otherwise completion is
reported (270-281, a client error there is caught).  The `finally` (283-286)
removes the id from the set on every path, including while the uncaught
exception is propagating through it. -/
def Agent.runExecutionRun (env : WorkerEnv) (execution_id command : String) :
    WorkerOutcome :=
  if env.allowed = false then
    { events := Agent.rejectExecutionRun env execution_id command
      escaped := none }
  else
    let tryRun : List Event × Option String :=
      if env.startRaises then ([Event.startExecution execution_id], none)
      else
        let eo := CommandExecutor.execute
          { processSome := false, cancelled := false } env.execEnv command
        match eo.raised with
        | some exc => ([Event.startExecution execution_id] ++ eo.events, some exc)
        | none =>
            ([Event.startExecution execution_id] ++ eo.events
              ++ [Event.completeExecution execution_id eo.result.exit_code eo.result.status],
             none)
    { events := Event.insertActive execution_id
        :: tryRun.1 ++ [Event.removeActive execution_id]
      escaped := tryRun.2 }

/-- A `concurrent.futures.Future` as seen by the agent: it stores the
exception raised inside the submitted callable, if any. -/
structure PoolFuture where
  storedException : Option String
  deriving DecidableEq

/-- `ThreadPoolExecutor.submit` of the per-item worker (agent.py:198-204):
by `concurrent.futures` semantics an exception raised inside the submitted
callable is captured and stored on the returned `Future`; it would re-surface
only through `Future.result()`, which `poll_and_execute` never calls, so the
submit call itself returns normally to the Agent Loop (second component
`none`) whatever the worker raised. -/
def Agent.submitToPool (o : WorkerOutcome) : PoolFuture × Option String :=
  ({ storedException := o.escaped }, none)

/-- Number of `complete_execution` invocations in a trace. -/
def completeCount (events : List Event) : Nat :=
  events.countP (fun e =>
    match e with
    | Event.completeExecution _ _ _ => true
    | _ => false)

/-- Number of `send_output` invocations in a trace. -/
def sendCount (events : List Event) : Nat :=
  events.countP (fun e =>
    match e with
    | Event.sendOutput _ _ _ _ => true
    | _ => false)

/-- Number of `start_execution` invocations in a trace. -/
def startCount (events : List Event) : Nat :=
  events.countP (fun e =>
    match e with
    | Event.startExecution _ => true
    | _ => false)

/-- Phase of one per-item worker with respect to the Active Execution Set.
`queued`: submitted to the thread pool, not yet running (agent.py:198-204);
`preInsert`: running, security check passed, id not yet inserted;
`inserted`: id inserted under the lock (agent.py:237-238);
`rejRunning`: running the rejection path, which never touches the set;
`wdone`: worker returned (after the `finally` removal for `inserted`). -/
inductive WPhase where
  | queued
  | preInsert
  | inserted
  | rejRunning
  | wdone
  deriving DecidableEq

/-- One worker task submitted to the executor pool, carrying its item's
execution id and security verdict. -/
structure AWorker where
  execId : String
  allowed : Bool
  phase : WPhase
  deriving DecidableEq

/-- One pending item returned by `get_pending_executions`. -/
structure PollItem where
  execId : String
  allowed : Bool
  deriving DecidableEq

/-- Shared agent state: the Active Execution Set's keys (`_active_executions`,
a dict, so keys are unique by construction), the submitted workers, and the
remainder of the current poll batch being iterated by `poll_and_execute`. -/
structure AgentState where
  active : List String
  workers : List AWorker
  batch : List PollItem
  deriving DecidableEq

/-- `Agent.MAX_CONCURRENT_EXECUTIONS` (agent.py:50). -/
def MAX_CONCURRENT_EXECUTIONS : Nat := 4

/-- A worker occupies a `ThreadPoolExecutor` slot from task start to task
end; the pool has `max_workers = MAX_CONCURRENT_EXECUTIONS` (agent.py:401-404). -/
def WPhase.isRunning : WPhase → Bool
  | WPhase.preInsert => true
  | WPhase.inserted => true
  | WPhase.rejRunning => true
  | _ => false

def runningCount (s : AgentState) : Nat :=
  s.workers.countP (fun w => w.phase.isRunning)

/-- Python dict assignment `d[k] = v` on the key sequence: a present key is
overwritten in place, an absent key is appended. -/
def insertKey (l : List String) (k : String) : List String :=
  if k ∈ l then l else l ++ [k]

/-- Interleaved atomic steps of the agent system.  Each step is one
lock-protected critical section or one scheduler event:
`newBatch`: `poll_and_execute` receives a fresh pending list (poll cycles run
sequentially on the main loop, so only when the previous batch is done);
`pollItem`: one iteration of the loop in `poll_and_execute` (agent.py:183-204)
— the skip/capacity checks under the lock, then `submit` outside it;
`startWorker i`: the pool starts a queued task when fewer than
`MAX_CONCURRENT_EXECUTIONS` tasks are running;
`stepWorker i`: the running worker `i` performs its next set-relevant action
(insert under the lock, or the `finally` removal, or the rejection path's
return). -/
inductive AStep where
  | newBatch (items : List PollItem)
  | pollItem
  | startWorker (i : Nat)
  | stepWorker (i : Nat)
  deriving DecidableEq

def AgentState.applyStep (s : AgentState) : AStep → Option AgentState
  | AStep.newBatch items =>
      if s.batch = [] then some { s with batch := items } else none
  | AStep.pollItem =>
      match s.batch with
      | [] => none
      | item :: rest =>
          if item.execId ∈ s.active then some { s with batch := rest }
          else if MAX_CONCURRENT_EXECUTIONS ≤ s.active.length then
            some { s with batch := [] }
          else
            some { s with
                    batch := rest,
                    workers := s.workers
                      ++ [{ execId := item.execId, allowed := item.allowed, phase := WPhase.queued }] }
  | AStep.startWorker i =>
      match s.workers[i]? with
      | none => none
      | some w =>
          if w.phase = WPhase.queued ∧ runningCount s < MAX_CONCURRENT_EXECUTIONS then
            some { s with
                    workers := s.workers.set i
                      { w with phase := if w.allowed then WPhase.preInsert else WPhase.rejRunning } }
          else none
  | AStep.stepWorker i =>
      match s.workers[i]? with
      | none => none
      | some w =>
          match w.phase with
          | WPhase.preInsert =>
              some { s with
                      workers := s.workers.set i { w with phase := WPhase.inserted },
                      active := insertKey s.active w.execId }
          | WPhase.inserted =>
              some { s with
                      workers := s.workers.set i { w with phase := WPhase.wdone },
                      active := s.active.erase w.execId }
          | WPhase.rejRunning =>
              some { s with workers := s.workers.set i { w with phase := WPhase.wdone } }
          | _ => none

/-- The agent starts with an empty set, no workers and no batch. -/
def agentInit : AgentState := { active := [], workers := [], batch := [] }

def runSteps (s : AgentState) : List AStep → Option AgentState
  | [] => some s
  | a :: rest =>
      match s.applyStep a with
      | some s' => runSteps s' rest
      | none => none

def AgentReachable (s : AgentState) : Prop :=
  ∃ steps, runSteps agentInit steps = some s

/-- Number of workers currently in phase `inserted` holding a given id. -/
def insCountFor (s : AgentState) (id : String) : Nat :=
  s.workers.countP (fun w => decide (w.phase = WPhase.inserted ∧ w.execId = id))

/-- Inductive invariant: the set keys are unique, at most
`MAX_CONCURRENT_EXECUTIONS` workers are running, and every key is held by
some worker in phase `inserted`. -/
def AgentInv (s : AgentState) : Prop :=
  s.active.Nodup ∧ runningCount s ≤ MAX_CONCURRENT_EXECUTIONS ∧
  ∀ id ∈ s.active, 0 < insCountFor s id

theorem appendChar_bufContent (b : LineBuffer) (now : Nat) (c : Char) :
    (b.appendChar now c).bufContent = b.bufContent ++ [c] := by
  unfold LineBuffer.appendChar LineBuffer.bufContent
  by_cases h : c = '\n' <;> simp [h]

theorem append_bufContent (b : LineBuffer) (now : Nat) (l : List Char) :
    (b.append now l).bufContent = b.bufContent ++ l := by
  induction l generalizing b with
  | nil => simp [LineBuffer.append]
  | cons c cs ih =>
      show ((b.appendChar now c).append now cs).bufContent = _
      rw [ih, appendChar_bufContent]
      simp

theorem flush_segsContent (b : LineBuffer) :
    segsContent (b.flush).1 = b.bufContent ∧ (b.flush).2.bufContent = [] := by
  unfold LineBuffer.flush LineBuffer.bufContent segsContent
  by_cases h : b.current_line_content = [] <;> simp [h, Function.comp_def]

theorem segsContent_append (l₁ l₂ : List Segment) :
    segsContent (l₁ ++ l₂) = segsContent l₁ ++ segsContent l₂ := by
  simp [segsContent]

theorem runLB_invariant (ops : List LBOp) (b : LineBuffer) :
    segsContent (runLB b ops).2 ++ (runLB b ops).1.bufContent
      = b.bufContent ++ appendedContent ops := by
  induction ops generalizing b with
  | nil => simp [runLB, segsContent, appendedContent]
  | cons op ops ih =>
      cases op with
      | appendOp now content =>
          have h := ih (b.append now content)
          simp only [runLB, LineBuffer.runOp, appendedContent]
          rw [append_bufContent] at h
          simpa [segsContent, List.append_assoc] using h
      | flushOp =>
          have h := ih (b.flush).2
          have hf := flush_segsContent b
          simp only [runLB, LineBuffer.runOp, appendedContent]
          rw [segsContent_append, List.append_assoc, h, hf.2]
          simp [hf.1]

/-- C1: the claim says a continuation of a still-open line, appended after a
flush already reported that line's partial content, is reported with a null
timestamp on the next flush.  The source's `flush` clears the content and sets
the timestamp to `None` intending exactly that (executor.py:87-89), but
`append` re-stamps any character arriving while the timestamp is `None`
(executor.py:56-57), so the continuation segment of the still-open line is
reported with a fresh NON-null timestamp: on `append "ab"; flush; append "cd";
flush` the two flushed segments carry timestamps `some 1` and `some 2`, where
the claim (and the source's own comment and docstring) require the second to
be `none`. -/
theorem lineBuffer_continuation_restamped :
    ((runLB (LineBuffer.init false)
      [LBOp.appendOp 1 ['a', 'b'], LBOp.flushOp,
       LBOp.appendOp 2 ['c', 'd'], LBOp.flushOp]).2.map
        (fun s => s.timestamp)) = [some 1, some 2] := by decide

/-- C2: for every interleaving of `append`/`flush` calls on a `LineBuffer`,
the concatenation of the content of all segments returned across all flushes,
including a final flush, equals the concatenation of all appended content —
no characters lost or duplicated. -/
theorem lineBuffer_roundTrip (ops : List LBOp) :
    segsContent ((runLB (LineBuffer.init false) ops).2
        ++ ((runLB (LineBuffer.init false) ops).1.flush).1)
      = appendedContent ops := by
  rw [segsContent_append, (flush_segsContent (runLB (LineBuffer.init false) ops).1).1]
  have h := runLB_invariant ops (LineBuffer.init false)
  simpa [LineBuffer.init, LineBuffer.bufContent] using h

theorem flushBuffer_spec (chunkn : Nat) (buf : LineBuffer) :
    chunkn ≤ (OutputStreamManager.flushBuffer chunkn buf).1 ∧
    ∀ c ∈ (OutputStreamManager.flushBuffer chunkn buf).2.1,
      chunkn < c.chunk_number ∧ c.chunk_number ≤ (OutputStreamManager.flushBuffer chunkn buf).1 := by
  unfold OutputStreamManager.flushBuffer
  by_cases h : (buf.flush).1 = [] <;> simp [h]

theorem flushStep_spec (m : OutputStreamManager) :
    m.chunk_number ≤ (m.flushStep).1.chunk_number ∧
    List.Pairwise (fun a b => a.chunk_number < b.chunk_number) (m.flushStep).2 ∧
    ∀ c ∈ (m.flushStep).2,
      m.chunk_number < c.chunk_number ∧ c.chunk_number ≤ (m.flushStep).1.chunk_number := by
  unfold OutputStreamManager.flushStep
  have h1 := flushBuffer_spec m.chunk_number m.stdout_buffer
  have h2 := flushBuffer_spec (OutputStreamManager.flushBuffer m.chunk_number m.stdout_buffer).1 m.stderr_buffer
  refine ⟨le_trans h1.1 h2.1, ?_, ?_⟩
  · rw [List.pairwise_append]
    refine ⟨?_, ?_, ?_⟩
    · unfold OutputStreamManager.flushBuffer
      by_cases h : ((m.stdout_buffer).flush).1 = [] <;> simp [h]
    · unfold OutputStreamManager.flushBuffer
      by_cases h : ((m.stderr_buffer).flush).1 = [] <;> simp [h]
    · intro a ha b hb
      exact lt_of_le_of_lt ((h1.2 a ha).2) ((h2.2 b hb).1)
  · intro c hc
    rcases List.mem_append.mp hc with h | h
    · exact ⟨(h1.2 c h).1, le_trans (h1.2 c h).2 h2.1⟩
    · exact ⟨lt_of_le_of_lt h1.1 (h2.2 c h).1, (h2.2 c h).2⟩

theorem runOSM_spec (ops : List OSMOp) (m : OutputStreamManager) :
    m.chunk_number ≤ (runOSM m ops).1.chunk_number ∧
    List.Pairwise (fun a b => a.chunk_number < b.chunk_number) (runOSM m ops).2 ∧
    ∀ c ∈ (runOSM m ops).2,
      m.chunk_number < c.chunk_number ∧ c.chunk_number ≤ (runOSM m ops).1.chunk_number := by
  induction ops generalizing m with
  | nil => simp [runOSM]
  | cons op ops ih =>
      cases op with
      | appendOp now content is_stderr =>
          have h := ih (m.append now content is_stderr)
          have hcn : (m.append now content is_stderr).chunk_number = m.chunk_number := by
            unfold OutputStreamManager.append
            by_cases hb : is_stderr <;> simp [hb]
          simp only [runOSM, OutputStreamManager.runOp, List.nil_append]
          rw [← hcn]
          exact h
      | flushOp =>
          have hs := flushStep_spec m
          have h := ih (m.flushStep).1
          simp only [runOSM, OutputStreamManager.runOp]
          refine ⟨le_trans hs.1 h.1, ?_, ?_⟩
          · rw [List.pairwise_append]
            refine ⟨hs.2.1, h.2.1, ?_⟩
            intro a ha b hb
            exact lt_of_le_of_lt ((hs.2.2 a ha).2) ((h.2.2 b hb).1)
          · intro c hc
            rcases List.mem_append.mp hc with hm | hm
            · exact ⟨(hs.2.2 c hm).1, le_trans (hs.2.2 c hm).2 h.1⟩
            · exact ⟨lt_of_le_of_lt hs.1 (h.2.2 c hm).1, (h.2.2 c hm).2⟩

/-- C8: across any interleaving of appends and flush ticks of one execution's
`OutputStreamManager`, the sequence numbers of the emitted chunks — stdout and
stderr chunks together, drawn from the single per-execution counter — strictly
increase in emission order, and no number is ever reused. -/
theorem outputStream_sequence_numbers_strictly_increase (ops : List OSMOp) :
    List.Pairwise (fun a b => a.chunk_number < b.chunk_number)
      (runOSM OutputStreamManager.start ops).2 ∧
    List.Pairwise (fun a b => a.chunk_number ≠ b.chunk_number)
      (runOSM OutputStreamManager.start ops).2 := by
  have h := (runOSM_spec ops OutputStreamManager.start).2.1
  exact ⟨h, h.imp (fun hlt => Nat.ne_of_lt hlt)⟩

/-- C4: when the spawned process has not exited within the timeout, `execute`
escalates terminate-then-kill (SIGTERM first; SIGKILL only if the process does
not exit within the grace period), finalizes the Output Stream Manager, and
returns `(exit_code = -1, status = timed_out)`; the process is no longer
running after the call returns. -/
theorem execute_timeout_escalates (s : CommandExecutorState) (env : ExecEnv)
    (command : String) (h0 : env.splitRaises = false) (h1 : env.spawnRaises = false)
    (h2 : env.exitsWithinTimeout = false) :
    (CommandExecutor.execute s env command).result
        = { exit_code := -1, status := "timed_out" } ∧
    (CommandExecutor.execute s env command).events
        = [Event.spawnProcess command, Event.sigterm]
          ++ (if env.exitsOnTerm then [] else [Event.sigkill])
          ++ [Event.finalizeStream] ∧
    (CommandExecutor.execute s env command).procState = ProcState.exited := by
  unfold CommandExecutor.execute CommandExecutor.killProcessRun
  by_cases h3 : env.exitsOnTerm <;> simp [h0, h1, h2, h3]

/-- C4 witness: a concrete timed-out run (process ignores SIGTERM). -/
theorem execute_timeout_escalates_witness :
    (CommandExecutor.execute { processSome := false, cancelled := false }
        { splitRaises := false, spawnRaises := false, exitsWithinTimeout := false, exitCode := 0,
          cancelDuringRun := false, exitsOnTerm := false } "migrate").result
        = { exit_code := -1, status := "timed_out" } ∧
    (CommandExecutor.execute { processSome := false, cancelled := false }
        { splitRaises := false, spawnRaises := false, exitsWithinTimeout := false, exitCode := 0,
          cancelDuringRun := false, exitsOnTerm := false } "migrate").events
        = [Event.spawnProcess "migrate", Event.sigterm]
          ++ (if (false : Bool) then [] else [Event.sigkill])
          ++ [Event.finalizeStream] ∧
    (CommandExecutor.execute { processSome := false, cancelled := false }
        { splitRaises := false, spawnRaises := false, exitsWithinTimeout := false, exitCode := 0,
          cancelDuringRun := false, exitsOnTerm := false } "migrate").procState
        = ProcState.exited :=
  execute_timeout_escalates
    { processSome := false, cancelled := false }
    { splitRaises := false, spawnRaises := false, exitsWithinTimeout := false, exitCode := 0,
      cancelDuringRun := false, exitsOnTerm := false } "migrate" rfl rfl rfl

/-- C5: if cancellation was requested before `execute`'s post-wait check of
the flag, `execute` returns status `cancelled` carrying the process's actual
exit code, whatever that code is; the only exception is the timeout path,
which occurs earlier in the control flow and returns `timed_out` regardless
of the cancellation flag. -/
theorem execute_cancel_reported (s : CommandExecutorState) (env : ExecEnv)
    (command : String) :
    (env.splitRaises = false → env.spawnRaises = false →
      env.exitsWithinTimeout = true → env.cancelDuringRun = true →
      (CommandExecutor.execute s env command).result
        = { exit_code := env.exitCode, status := "cancelled" }) ∧
    (env.splitRaises = false → env.spawnRaises = false →
      env.exitsWithinTimeout = false →
      (CommandExecutor.execute s env command).result.status = "timed_out") := by
  constructor
  · intro h0 h1 h2 h3
    unfold CommandExecutor.execute
    simp [h0, h1, h2, h3]
  · intro h0 h1 h2
    unfold CommandExecutor.execute
    simp [h0, h1, h2]

/-- C5 witness: a run whose process exits with code 0 while cancellation is
flagged is still reported `cancelled`, and a concrete timed-out cancelled run
is reported `timed_out`. -/
theorem execute_cancel_reported_witness :
    (CommandExecutor.execute { processSome := false, cancelled := false }
        { splitRaises := false, spawnRaises := false, exitsWithinTimeout := true, exitCode := 0,
          cancelDuringRun := true, exitsOnTerm := true } "migrate").result
      = { exit_code := 0, status := "cancelled" } ∧
    (CommandExecutor.execute { processSome := false, cancelled := false }
        { splitRaises := false, spawnRaises := false, exitsWithinTimeout := false, exitCode := 0,
          cancelDuringRun := true, exitsOnTerm := true } "migrate").result.status
      = "timed_out" :=
  ⟨(execute_cancel_reported { processSome := false, cancelled := false }
      { splitRaises := false, spawnRaises := false, exitsWithinTimeout := true, exitCode := 0,
        cancelDuringRun := true, exitsOnTerm := true } "migrate").1 rfl rfl rfl rfl,
   (execute_cancel_reported { processSome := false, cancelled := false }
      { splitRaises := false, spawnRaises := false, exitsWithinTimeout := false, exitCode := 0,
        cancelDuringRun := true, exitsOnTerm := true } "migrate").2 rfl rfl rfl⟩

/-- Helper for C3 and C9: every result `execute` can return carries one of the
four terminal statuses. -/
theorem execute_status_terminal (s : CommandExecutorState) (env : ExecEnv)
    (command : String) :
    (CommandExecutor.execute s env command).result.status
      ∈ ["success", "failed", "cancelled", "timed_out"] := by
  unfold CommandExecutor.execute
  by_cases h0 : env.splitRaises <;>
    by_cases h1 : env.spawnRaises <;>
      by_cases h2 : env.exitsWithinTimeout <;>
        by_cases h3 : env.cancelDuringRun <;>
          by_cases h4 : env.exitCode = 0 <;>
            simp [h0, h1, h2, h3, h4]

/-- Helper for C10: the result of `execute` does not depend on the executor
state at entry, because line 206 resets the cancellation flag and line 230
overwrites the process handle before either is read. -/
theorem execute_state_irrelevant (s s' : CommandExecutorState) (env : ExecEnv)
    (command : String) :
    (CommandExecutor.execute s env command).result
      = (CommandExecutor.execute s' env command).result ∧
    (CommandExecutor.execute s env command).events
      = (CommandExecutor.execute s' env command).events := by
  unfold CommandExecutor.execute
  by_cases h0 : env.splitRaises <;>
    by_cases h1 : env.spawnRaises <;>
      by_cases h2 : env.exitsWithinTimeout <;>
        by_cases h3 : env.cancelDuringRun <;>
          simp [h0, h1, h2, h3]

/-- C10: calling `cancel force` while no process is running sets the
cancellation flag and returns without sending any signal; and because
`execute` resets the flag at entry, a cancel issued before `execute` begins
has no effect on the `ExecutionResult` (or the event trace) that `execute`
returns. -/
theorem cancel_without_process (s : CommandExecutorState) (envC env : ExecEnv)
    (force : Bool) (command : String) (h : s.processSome = false) :
    CommandExecutor.cancel s envC force
        = ({ processSome := s.processSome, cancelled := true }, []) ∧
    (CommandExecutor.execute (CommandExecutor.cancel s envC force).1 env command).result
        = (CommandExecutor.execute s env command).result := by
  constructor
  · unfold CommandExecutor.cancel
    simp [h]
  · exact (execute_state_irrelevant (CommandExecutor.cancel s envC force).1 s env command).1

/-- C10 witness: a concrete cancel on an idle executor followed by a normal
successful run. -/
theorem cancel_without_process_witness :
    CommandExecutor.cancel { processSome := false, cancelled := false }
        { splitRaises := false, spawnRaises := false, exitsWithinTimeout := true, exitCode := 0,
          cancelDuringRun := false, exitsOnTerm := true } true
      = ({ processSome := false, cancelled := true }, []) ∧
    (CommandExecutor.execute
        (CommandExecutor.cancel { processSome := false, cancelled := false }
          { splitRaises := false, spawnRaises := false, exitsWithinTimeout := true, exitCode := 0,
            cancelDuringRun := false, exitsOnTerm := true } true).1
        { splitRaises := false, spawnRaises := false, exitsWithinTimeout := true, exitCode := 0,
          cancelDuringRun := false, exitsOnTerm := true } "migrate").result
      = (CommandExecutor.execute { processSome := false, cancelled := false }
          { splitRaises := false, spawnRaises := false, exitsWithinTimeout := true, exitCode := 0,
            cancelDuringRun := false, exitsOnTerm := true } "migrate").result :=
  cancel_without_process
    { processSome := false, cancelled := false }
    { splitRaises := false, spawnRaises := false, exitsWithinTimeout := true, exitCode := 0,
      cancelDuringRun := false, exitsOnTerm := true }
    { splitRaises := false, spawnRaises := false, exitsWithinTimeout := true, exitCode := 0,
      cancelDuringRun := false, exitsOnTerm := true } true "migrate" rfl

/-- C3 counterexample: the claim says `complete_execution` is invoked exactly
once for every execution handled by the per-item worker, but when
`start_execution` raises a client error the worker returns early
(agent.py:244-246) and `complete_execution` is never invoked: a concrete
allowed execution whose start notification fails yields zero invocations. -/
theorem worker_complete_not_called_on_start_failure :
    completeCount (Agent.runExecutionRun
      { allowed := true, reason := "", startRaises := true, sendRaises := false,
        completeRaises := false,
        execEnv := { splitRaises := false, spawnRaises := false, exitsWithinTimeout := true,
                     exitCode := 0, cancelDuringRun := false, exitsOnTerm := true } }
      "exec-1" "migrate").events = 0 := by decide

/-- Helper: `execute` escapes with the uncaught `ValueError` exactly when
`shlex.split` raises (executor.py:221, outside the `try`), and returns
normally on every other path. -/
theorem execute_raised_iff (s : CommandExecutorState) (env : ExecEnv)
    (command : String) :
    (CommandExecutor.execute s env command).raised
      = (if env.splitRaises then some "ValueError" else none) := by
  unfold CommandExecutor.execute
  by_cases e0 : env.splitRaises <;>
    by_cases e1 : env.spawnRaises <;>
      by_cases e2 : env.exitsWithinTimeout <;>
        by_cases e3 : env.cancelDuringRun <;>
          simp [e0, e1, e2, e3]

/-- Helper for C3 and C9: every event `execute` emits is a process-boundary or
stream event, never a control-plane call. -/
theorem execute_events_kinds (s : CommandExecutorState) (env : ExecEnv)
    (command : String) :
    ∀ e ∈ (CommandExecutor.execute s env command).events,
      e = Event.spawnProcess command ∨ e = Event.sigterm ∨ e = Event.sigkill
        ∨ e = Event.finalizeStream := by
  unfold CommandExecutor.execute CommandExecutor.killProcessRun
  by_cases e0 : env.splitRaises <;>
    by_cases e1 : env.spawnRaises <;>
      by_cases e2 : env.exitsWithinTimeout <;>
        by_cases e3 : env.cancelDuringRun <;>
          by_cases e4 : env.exitsOnTerm <;>
            simp [e0, e1, e2, e3, e4]

/-- C3 (amended): for every execution handled by the per-item worker, every
status reported through `complete_execution` is one of
`{success, failed, cancelled, timed_out}`, and `complete_execution` is
invoked exactly once — unless the start notification raises a client error
(the worker returns early, agent.py:244-246 and 298-300), or the command is
allowed and `shlex.split(args)` raises `ValueError` on an unbalanced quote
(executor.py:221, outside `execute`'s `try`), which propagates through
`_run_execution`'s handler-less `try` past the completion report; in those
cases `complete_execution` is not invoked at all. -/
theorem worker_complete_once_with_terminal_status (env : WorkerEnv)
    (execution_id command : String) :
    completeCount (Agent.runExecutionRun env execution_id command).events
        = (if env.startRaises then 0
           else if env.allowed = true ∧ env.execEnv.splitRaises = true then 0 else 1) ∧
    (∀ i ec st, Event.completeExecution i ec st
        ∈ (Agent.runExecutionRun env execution_id command).events →
      st ∈ ["success", "failed", "cancelled", "timed_out"]) := by
  have hst := execute_status_terminal
    { processSome := false, cancelled := false } env.execEnv command
  have hkinds := execute_events_kinds
    { processSome := false, cancelled := false } env.execEnv command
  have hr := execute_raised_iff
    { processSome := false, cancelled := false } env.execEnv command
  constructor
  · by_cases h1 : env.allowed
    · by_cases h2 : env.startRaises
      · simp [Agent.runExecutionRun, h1, h2, completeCount,
              List.countP_append, List.countP_cons]
      · by_cases h3 : env.execEnv.splitRaises
        · simp [Agent.runExecutionRun, h1, h2, CommandExecutor.execute, h3,
                completeCount, List.countP_append, List.countP_cons]
        · simp [Agent.runExecutionRun, h1, h2, hr, h3, completeCount,
                List.countP_append, List.countP_cons]
          intro a ha
          rcases hkinds a ha with h | h | h | h <;> simp [h]
    · by_cases h2 : env.startRaises <;>
        simp [Agent.runExecutionRun, Agent.rejectExecutionRun, h1, h2,
              completeCount, List.countP_cons]
  · intro i ec st hmem
    by_cases h1 : env.allowed
    · by_cases h2 : env.startRaises
      · simp [Agent.runExecutionRun, h1, h2] at hmem
      · by_cases h3 : env.execEnv.splitRaises
        · simp [Agent.runExecutionRun, h1, h2, CommandExecutor.execute, h3] at hmem
        · simp [Agent.runExecutionRun, h1, h2, hr, h3] at hmem
          rcases hmem with hmem | ⟨hi, hec, hs⟩
          · have := hkinds (Event.completeExecution i ec st) hmem
            simp at this
          · rw [hs]
            exact hst
    · by_cases h2 : env.startRaises
      · simp [Agent.runExecutionRun, Agent.rejectExecutionRun, h1, h2] at hmem
      · simp [Agent.runExecutionRun, Agent.rejectExecutionRun, h1, h2] at hmem
        simp [hmem.2.2]

/-- C3 witness: a concrete allowed execution with a working control plane gets
exactly one `complete_execution`, and its reported status `success` is
terminal. -/
theorem worker_complete_once_with_terminal_status_witness :
    completeCount (Agent.runExecutionRun
        { allowed := true, reason := "", startRaises := false, sendRaises := false,
          completeRaises := false,
          execEnv := { splitRaises := false, spawnRaises := false, exitsWithinTimeout := true,
                       exitCode := 0, cancelDuringRun := false, exitsOnTerm := true } }
        "exec-3" "migrate").events = 1 ∧
    ("success" : String) ∈ ["success", "failed", "cancelled", "timed_out"] :=
  ⟨by
    have h := (worker_complete_once_with_terminal_status
      { allowed := true, reason := "", startRaises := false, sendRaises := false,
        completeRaises := false,
        execEnv := { splitRaises := false, spawnRaises := false, exitsWithinTimeout := true,
                     exitCode := 0, cancelDuringRun := false, exitsOnTerm := true } }
      "exec-3" "migrate").1
    simpa using h,
   (worker_complete_once_with_terminal_status
      { allowed := true, reason := "", startRaises := false, sendRaises := false,
        completeRaises := false,
        execEnv := { splitRaises := false, spawnRaises := false, exitsWithinTimeout := true,
                     exitCode := 0, cancelDuringRun := false, exitsOnTerm := true } }
      "exec-3" "migrate").2 "exec-3" 0 "success" (by decide)⟩

/-- C6 counterexample: the claim says a disallowed execution always gets
exactly one stderr segment with the rejection reason and a
`complete_execution(-1, failed)`; but when `start_execution` raises a client
error, `_reject_execution` logs and returns (agent.py:298-300) before either,
so a concrete disallowed execution whose start notification fails sends no
output at all. -/
theorem reject_no_output_on_start_failure :
    sendCount (Agent.runExecutionRun
      { allowed := false, reason := "in DJANGOCOMMAND_DISALLOWED_COMMANDS blocklist",
        startRaises := true, sendRaises := false, completeRaises := false,
        execEnv := { splitRaises := false, spawnRaises := false, exitsWithinTimeout := true,
                     exitCode := 0, cancelDuringRun := false, exitsOnTerm := true } }
      "exec-2" "flush").events = 0 ∧
    completeCount (Agent.runExecutionRun
      { allowed := false, reason := "in DJANGOCOMMAND_DISALLOWED_COMMANDS blocklist",
        startRaises := true, sendRaises := false, completeRaises := false,
        execEnv := { splitRaises := false, spawnRaises := false, exitsWithinTimeout := true,
                     exitCode := 0, cancelDuringRun := false, exitsOnTerm := true } }
      "exec-2" "flush").events = 0 := by decide

/-- C6 (amended): for every execution whose command the security predicate
disallows, the worker invokes `start_execution` once, never spawns a process,
and never inserts the execution id into the Active Execution Set; provided the
start notification does not raise a client error, it moreover sends exactly
one stderr-tagged output segment whose content contains the rejection reason
and invokes `complete_execution` with `exit_code = -1` and status `failed`;
if the start notification raises, the worker returns after that single
`start_execution` invocation without sending output or completing. -/
theorem reject_execution_trace (env : WorkerEnv) (execution_id command : String)
    (h : env.allowed = false) :
    startCount (Agent.runExecutionRun env execution_id command).events = 1 ∧
    (∀ c, Event.spawnProcess c
        ∉ (Agent.runExecutionRun env execution_id command).events) ∧
    (∀ i, Event.insertActive i
        ∉ (Agent.runExecutionRun env execution_id command).events) ∧
    (env.startRaises = false →
      (Agent.runExecutionRun env execution_id command).events
        = [Event.startExecution execution_id,
           Event.sendOutput execution_id
             [rejectionMessage command env.reason] true 1,
           Event.completeExecution execution_id (-1) "failed"] ∧
      (∃ a b, rejectionMessage command env.reason = a ++ (env.reason ++ b))) ∧
    (env.startRaises = true →
      (Agent.runExecutionRun env execution_id command).events
        = [Event.startExecution execution_id]) := by
  unfold Agent.runExecutionRun Agent.rejectExecutionRun
  by_cases h2 : env.startRaises <;>
    simp [h, h2, startCount, List.countP_cons]
  exact ⟨rejectionHead command, rejectionTail command, rfl⟩

/-- C6 witness: a concrete disallowed command with a working control plane
produces exactly the three-call rejection trace, with the reason inside the
stderr segment. -/
theorem reject_execution_trace_witness :
    (Agent.runExecutionRun
        { allowed := false, reason := "not in DJANGOCOMMAND_ALLOWED_COMMANDS allowlist",
          startRaises := false, sendRaises := false, completeRaises := false,
          execEnv := { splitRaises := false, spawnRaises := false, exitsWithinTimeout := true,
                       exitCode := 0, cancelDuringRun := false, exitsOnTerm := true } }
        "exec-6" "shell").events
      = [Event.startExecution "exec-6",
         Event.sendOutput "exec-6"
           [rejectionMessage "shell" "not in DJANGOCOMMAND_ALLOWED_COMMANDS allowlist"] true 1,
         Event.completeExecution "exec-6" (-1) "failed"] ∧
    (∃ a b, rejectionMessage "shell" "not in DJANGOCOMMAND_ALLOWED_COMMANDS allowlist"
        = a ++ ("not in DJANGOCOMMAND_ALLOWED_COMMANDS allowlist" ++ b)) :=
  (reject_execution_trace
    { allowed := false, reason := "not in DJANGOCOMMAND_ALLOWED_COMMANDS allowlist",
      startRaises := false, sendRaises := false, completeRaises := false,
      execEnv := { splitRaises := false, spawnRaises := false, exitsWithinTimeout := true,
                   exitCode := 0, cancelDuringRun := false, exitsOnTerm := true } }
    "exec-6" "shell" rfl).2.2.2.1 rfl

/-- C9 counterexample: the claim says no exception from any per-execution
activity escapes the per-item worker to the Agent Loop; but
`shlex.split(args)` (executor.py:221) sits outside `execute`'s `try`, so on
an args string with an unbalanced quote its `ValueError` propagates through
`_run_execution`'s handler-less `try`/`finally` (agent.py:240-286) and
escapes the worker function: a concrete allowed execution with unbalanced
args escapes with the `ValueError` (also skipping `complete_execution`),
refuting `escaped = none` at the worker boundary. -/
theorem worker_escape_on_unbalanced_args :
    (Agent.runExecutionRun
      { allowed := true, reason := "", startRaises := false, sendRaises := false,
        completeRaises := false,
        execEnv := { splitRaises := true, spawnRaises := false, exitsWithinTimeout := true,
                     exitCode := 0, cancelDuringRun := false, exitsOnTerm := true } }
      "exec-10" "migrate").escaped = some "ValueError" := by decide

/-- C9 (amended): every client error from the per-execution activities
(security check, start notification, process execution, completion reporting)
is caught inside the worker; the one uncaught exception — the `ValueError`
from `shlex.split(args)` on an unbalanced quote, raised outside `execute`'s
`try` — escapes the worker function exactly in that case, is stored on the
executor pool's `Future`, and the submit call returns normally to the Agent
Loop, which never reads the future, so no exception reaches the Agent Loop.
The Active Execution Set cleanup is guaranteed on every path: whenever the
worker inserts the execution id (the allowed path), its trace is exactly the
insertion, then the body, then the removal — the `finally` runs even while
the uncaught exception propagates through it — and on the rejection path the
set is never touched. -/
theorem worker_escape_captured_and_guaranteed_cleanup (env : WorkerEnv)
    (execution_id command : String) :
    ((Agent.runExecutionRun env execution_id command).escaped
        = (if env.allowed = true ∧ env.startRaises = false ∧ env.execEnv.splitRaises = true
           then some "ValueError" else none)) ∧
    (Agent.submitToPool (Agent.runExecutionRun env execution_id command)).2 = none ∧
    (Agent.submitToPool (Agent.runExecutionRun env execution_id command)).1.storedException
        = (Agent.runExecutionRun env execution_id command).escaped ∧
    (env.allowed = true → ∃ mid,
      (Agent.runExecutionRun env execution_id command).events
          = Event.insertActive execution_id :: mid ++ [Event.removeActive execution_id] ∧
      (∀ i, Event.insertActive i ∉ mid) ∧ (∀ i, Event.removeActive i ∉ mid)) ∧
    (env.allowed = false →
      (∀ i, Event.insertActive i
          ∉ (Agent.runExecutionRun env execution_id command).events) ∧
      (∀ i, Event.removeActive i
          ∉ (Agent.runExecutionRun env execution_id command).events)) := by
  have hkinds := execute_events_kinds
    { processSome := false, cancelled := false } env.execEnv command
  have hr := execute_raised_iff
    { processSome := false, cancelled := false } env.execEnv command
  refine ⟨?_, rfl, rfl, ?_, ?_⟩
  · by_cases h1 : env.allowed
    · by_cases h2 : env.startRaises
      · simp [Agent.runExecutionRun, h1, h2]
      · by_cases h3 : env.execEnv.splitRaises <;>
          simp [Agent.runExecutionRun, h1, h2, hr, h3]
    · simp [Agent.runExecutionRun, Agent.rejectExecutionRun, h1]
  · intro h1
    by_cases h2 : env.startRaises
    · refine ⟨[Event.startExecution execution_id], ?_, ?_, ?_⟩ <;>
        simp [Agent.runExecutionRun, h1, h2]
    · by_cases h3 : env.execEnv.splitRaises
      · refine ⟨[Event.startExecution execution_id], ?_, ?_, ?_⟩ <;>
          simp [Agent.runExecutionRun, h1, h2, CommandExecutor.execute, h3]
      · refine ⟨[Event.startExecution execution_id]
            ++ (CommandExecutor.execute
                  { processSome := false, cancelled := false } env.execEnv command).events
            ++ [Event.completeExecution execution_id
                  (CommandExecutor.execute
                    { processSome := false, cancelled := false } env.execEnv command).result.exit_code
                  (CommandExecutor.execute
                    { processSome := false, cancelled := false } env.execEnv command).result.status],
          ?_, ?_, ?_⟩
        · simp [Agent.runExecutionRun, h1, h2, hr, h3]
        · intro i
          simp
          intro hmem
          have := hkinds (Event.insertActive i) hmem
          simp at this
        · intro i
          simp
          intro hmem
          have := hkinds (Event.removeActive i) hmem
          simp at this
  · intro h1
    unfold Agent.runExecutionRun Agent.rejectExecutionRun
    by_cases h2 : env.startRaises <;> simp [h1, h2]

/-- C9 witness: the cleanup decomposition at a concrete allowed execution
whose args string has an unbalanced quote: the `ValueError` escapes the
worker and `complete_execution` is skipped, yet the `finally` still removes
the execution id last. -/
theorem worker_escape_captured_and_guaranteed_cleanup_witness :
    ∃ mid,
      (Agent.runExecutionRun
          { allowed := true, reason := "", startRaises := false, sendRaises := false,
            completeRaises := false,
            execEnv := { splitRaises := true, spawnRaises := false, exitsWithinTimeout := true,
                         exitCode := 2, cancelDuringRun := false, exitsOnTerm := true } }
          "exec-9" "migrate").events
        = Event.insertActive "exec-9" :: mid ++ [Event.removeActive "exec-9"] ∧
      (∀ i, Event.insertActive i ∉ mid) ∧ (∀ i, Event.removeActive i ∉ mid) :=
  (worker_escape_captured_and_guaranteed_cleanup
    { allowed := true, reason := "", startRaises := false, sendRaises := false,
      completeRaises := false,
      execEnv := { splitRaises := true, spawnRaises := false, exitsWithinTimeout := true,
                   exitCode := 2, cancelDuringRun := false, exitsOnTerm := true } }
    "exec-9" "migrate").2.2.2.1 rfl

theorem countP_set_add {α : Type} (p : α → Bool) (l : List α) (i : Nat) (a b : α)
    (h : l[i]? = some a) :
    (l.set i b).countP p + (if p a then 1 else 0)
      = l.countP p + (if p b then 1 else 0) := by
  induction l generalizing i with
  | nil => simp at h
  | cons x xs ih =>
      cases i with
      | zero =>
          simp at h
          subst h
          simp only [List.set_cons_zero, List.countP_cons]
          cases hpa : p x <;> cases hpb : p b <;> simp [hpa, hpb]
      | succ n =>
          simp only [List.getElem?_cons_succ] at h
          have hrec := ih n h
          simp only [List.set_cons_succ, List.countP_cons]
          cases hpa : p a <;> cases hpb : p b <;> cases hpx : p x <;>
            simp [hpa, hpb, hpx] at hrec ⊢ <;> omega

theorem countP_set_ff_ff {α : Type} (p : α → Bool) (l : List α) (i : Nat) (a b : α)
    (h : l[i]? = some a) (ha : p a = false) (hb : p b = false) :
    (l.set i b).countP p = l.countP p := by
  have hc := countP_set_add p l i a b h
  simp [ha, hb] at hc
  exact hc

theorem countP_set_ff_tt {α : Type} (p : α → Bool) (l : List α) (i : Nat) (a b : α)
    (h : l[i]? = some a) (ha : p a = false) (hb : p b = true) :
    (l.set i b).countP p = l.countP p + 1 := by
  have hc := countP_set_add p l i a b h
  simp [ha, hb] at hc
  exact hc

theorem insertKey_nodup (l : List String) (k : String) (h : l.Nodup) :
    (insertKey l k).Nodup := by
  unfold insertKey
  by_cases hm : k ∈ l <;> simp [hm, List.nodup_append, h]

theorem mem_insertKey {l : List String} {k id : String} (h : id ∈ insertKey l k) :
    id ∈ l ∨ id = k := by
  unfold insertKey at h
  by_cases hm : k ∈ l
  · rw [if_pos hm] at h
    exact Or.inl h
  · rw [if_neg hm] at h
    simpa using h

theorem nodup_subset_length {l₁ l₂ : List String} (h₁ : l₁.Nodup)
    (h₂ : ∀ x ∈ l₁, x ∈ l₂) : l₁.length ≤ l₂.length := by
  have h3 : l₁.toFinset.card = l₁.length := List.toFinset_card_of_nodup h₁
  have h4 : l₁.toFinset ⊆ l₂.toFinset := by
    intro x hx
    rw [List.mem_toFinset] at hx ⊢
    exact h₂ x hx
  calc l₁.length = l₁.toFinset.card := h3.symm
    _ ≤ l₂.toFinset.card := Finset.card_le_card h4
    _ ≤ l₂.length := List.toFinset_card_le l₂

theorem active_length_le (s : AgentState) (hInv : AgentInv s) :
    s.active.length ≤ MAX_CONCURRENT_EXECUTIONS := by
  obtain ⟨hnd, hrc, hins⟩ := hInv
  have hsub : ∀ id ∈ s.active,
      id ∈ (s.workers.filter (fun w => decide (w.phase = WPhase.inserted))).map
        (fun w => w.execId) := by
    intro id hid
    obtain ⟨w, hw, hpw⟩ := List.countP_pos_iff.mp (hins id hid)
    simp only [decide_eq_true_eq] at hpw
    refine List.mem_map.mpr ⟨w, List.mem_filter.mpr ⟨hw, by simp [hpw.1]⟩, hpw.2⟩
  have h1 := nodup_subset_length hnd hsub
  rw [List.length_map, ← List.countP_eq_length_filter] at h1
  have h3 : s.workers.countP (fun w => decide (w.phase = WPhase.inserted))
      ≤ runningCount s := by
    apply List.countP_mono_left
    intro w _ hwp
    simp only [decide_eq_true_eq] at hwp
    simp [hwp, WPhase.isRunning]
  omega

theorem applyStep_preserves (s s' : AgentState) (a : AStep)
    (hInv : AgentInv s) (h : s.applyStep a = some s') : AgentInv s' := by
  obtain ⟨hnd, hrc, hins⟩ := hInv
  cases a with
  | newBatch items =>
      simp only [AgentState.applyStep] at h
      by_cases hb : s.batch = []
      · rw [if_pos hb] at h
        simp only [Option.some.injEq] at h
        subst h
        exact ⟨hnd, hrc, hins⟩
      · rw [if_neg hb] at h
        simp at h
  | pollItem =>
      simp only [AgentState.applyStep] at h
      cases hb : s.batch with
      | nil => rw [hb] at h; simp at h
      | cons item rest =>
          rw [hb] at h
          simp only [] at h
          by_cases hmem : item.execId ∈ s.active
          · rw [if_pos hmem] at h
            simp only [Option.some.injEq] at h
            subst h
            exact ⟨hnd, hrc, hins⟩
          · rw [if_neg hmem] at h
            by_cases hcap : MAX_CONCURRENT_EXECUTIONS ≤ s.active.length
            · rw [if_pos hcap] at h
              simp only [Option.some.injEq] at h
              subst h
              exact ⟨hnd, hrc, hins⟩
            · rw [if_neg hcap] at h
              simp only [Option.some.injEq] at h
              subst h
              refine ⟨hnd, ?_, ?_⟩
              · unfold runningCount at hrc ⊢
                simpa [List.countP_append, WPhase.isRunning] using hrc
              · intro id hid
                have := hins id hid
                unfold insCountFor at this ⊢
                simpa [List.countP_append] using this
  | startWorker i =>
      simp only [AgentState.applyStep] at h
      cases hw : s.workers[i]? with
      | none => rw [hw] at h; simp at h
      | some w =>
          rw [hw] at h
          simp only [] at h
          by_cases hg : w.phase = WPhase.queued ∧ runningCount s < MAX_CONCURRENT_EXECUTIONS
          · rw [if_pos hg] at h
            simp only [Option.some.injEq] at h
            subst h
            have hpw : w.phase.isRunning = false := by rw [hg.1]; rfl
            have hpw' : ({ w with phase := if w.allowed then WPhase.preInsert
                else WPhase.rejRunning } : AWorker).phase.isRunning = true := by
              by_cases ha : w.allowed <;> simp [ha, WPhase.isRunning]
            refine ⟨hnd, ?_, ?_⟩
            · have hc := countP_set_add (fun w => w.phase.isRunning) s.workers i w
                { w with phase := if w.allowed then WPhase.preInsert else WPhase.rejRunning } hw
              simp only [hpw, hpw'] at hc
              simp at hc
              have hg2 := hg.2
              simp only [runningCount] at hg2 ⊢
              omega
            · intro id hid
              have hold := hins id hid
              simp only [insCountFor] at hold ⊢
              have hc := countP_set_ff_ff
                (fun w => decide (w.phase = WPhase.inserted ∧ w.execId = id)) s.workers i w
                { w with phase := if w.allowed then WPhase.preInsert else WPhase.rejRunning } hw
                (by simp [hg.1])
                (by by_cases ha : w.allowed <;> simp [ha])
              omega
          · rw [if_neg hg] at h
            simp at h
  | stepWorker i =>
      simp only [AgentState.applyStep] at h
      cases hw : s.workers[i]? with
      | none => rw [hw] at h; simp at h
      | some w =>
          rw [hw] at h
          simp only [] at h
          cases hp : w.phase with
          | queued => rw [hp] at h; simp at h
          | wdone => rw [hp] at h; simp at h
          | preInsert =>
              rw [hp] at h
              simp only [Option.some.injEq] at h
              subst h
              refine ⟨insertKey_nodup s.active w.execId hnd, ?_, ?_⟩
              · have hc := countP_set_add (fun w => w.phase.isRunning) s.workers i w
                  { w with phase := WPhase.inserted } hw
                have hpw : w.phase.isRunning = true := by rw [hp]; rfl
                have hpw' : ({ w with phase := WPhase.inserted } : AWorker).phase.isRunning
                    = true := by simp [WPhase.isRunning]
                simp only [hpw, hpw'] at hc
                simp at hc
                have hrc2 := hrc
                simp only [runningCount] at hrc2 ⊢
                omega
              · intro id hid
                simp only [insCountFor]
                by_cases he : w.execId = id
                · have hc := countP_set_ff_tt
                    (fun w => decide (w.phase = WPhase.inserted ∧ w.execId = id)) s.workers i w
                    { w with phase := WPhase.inserted } hw
                    (by simp [hp]) (by simp [he])
                  omega
                · have hc := countP_set_ff_ff
                    (fun w => decide (w.phase = WPhase.inserted ∧ w.execId = id)) s.workers i w
                    { w with phase := WPhase.inserted } hw
                    (by simp [hp]) (by simp [he])
                  rcases mem_insertKey hid with hin | hin
                  · have hold := hins id hin
                    simp only [insCountFor] at hold
                    omega
                  · exact absurd hin.symm he
          | inserted =>
              rw [hp] at h
              simp only [Option.some.injEq] at h
              subst h
              refine ⟨hnd.erase w.execId, ?_, ?_⟩
              · have hc := countP_set_add (fun w => w.phase.isRunning) s.workers i w
                  { w with phase := WPhase.wdone } hw
                have hpw : w.phase.isRunning = true := by rw [hp]; rfl
                have hpw' : ({ w with phase := WPhase.wdone } : AWorker).phase.isRunning
                    = false := by simp [WPhase.isRunning]
                simp only [hpw, hpw'] at hc
                simp at hc
                have hrc2 := hrc
                simp only [runningCount] at hrc2 ⊢
                omega
              · intro id hid
                obtain ⟨hne, hin⟩ := (List.Nodup.mem_erase_iff hnd).mp hid
                have hold := hins id hin
                simp only [insCountFor] at hold ⊢
                have hc := countP_set_ff_ff
                  (fun w => decide (w.phase = WPhase.inserted ∧ w.execId = id)) s.workers i w
                  { w with phase := WPhase.wdone } hw
                  (by simp [hp]; exact fun hcon => hne hcon.symm)
                  (by simp)
                omega
          | rejRunning =>
              rw [hp] at h
              simp only [Option.some.injEq] at h
              subst h
              refine ⟨hnd, ?_, ?_⟩
              · have hc := countP_set_add (fun w => w.phase.isRunning) s.workers i w
                  { w with phase := WPhase.wdone } hw
                have hpw : w.phase.isRunning = true := by rw [hp]; rfl
                have hpw' : ({ w with phase := WPhase.wdone } : AWorker).phase.isRunning
                    = false := by simp [WPhase.isRunning]
                simp only [hpw, hpw'] at hc
                simp at hc
                have hrc2 := hrc
                simp only [runningCount] at hrc2 ⊢
                omega
              · intro id hid
                have hold := hins id hid
                simp only [insCountFor] at hold ⊢
                have hc := countP_set_ff_ff
                  (fun w => decide (w.phase = WPhase.inserted ∧ w.execId = id)) s.workers i w
                  { w with phase := WPhase.wdone } hw
                  (by simp [hp]) (by simp)
                omega

theorem agentInit_inv : AgentInv agentInit := by
  refine ⟨?_, ?_, ?_⟩ <;> simp [agentInit, runningCount, insCountFor, MAX_CONCURRENT_EXECUTIONS]

theorem runSteps_inv (steps : List AStep) (s₀ s : AgentState)
    (h₀ : AgentInv s₀) (h : runSteps s₀ steps = some s) : AgentInv s := by
  induction steps generalizing s₀ with
  | nil =>
      simp only [runSteps, Option.some.injEq] at h
      subst h
      exact h₀
  | cons a rest ih =>
      unfold runSteps at h
      cases ha : s₀.applyStep a with
      | none => rw [ha] at h; simp at h
      | some s₁ =>
          rw [ha] at h
          exact ih s₁ (applyStep_preserves s₀ s₁ a h₀ ha) h

/-- C7: in every reachable state of the agent system, the Active Execution
Set contains no duplicate execution id and has size at most
`MAX_CONCURRENT_EXECUTIONS` (= 4); and a polled execution whose id is already
in the set is skipped — the `pollItem` step consumes the item without
submitting any worker, so the execution is not started again from that
item. -/
theorem active_set_bounded_and_skip (s : AgentState) (h : AgentReachable s) :
    s.active.Nodup ∧ s.active.length ≤ MAX_CONCURRENT_EXECUTIONS ∧
    (∀ item rest, s.batch = item :: rest → item.execId ∈ s.active →
      s.applyStep AStep.pollItem = some { s with batch := rest }) := by
  obtain ⟨steps, hsteps⟩ := h
  have hInv := runSteps_inv steps agentInit s agentInit_inv hsteps
  refine ⟨hInv.1, active_length_le s hInv, ?_⟩
  intro item rest hb hmem
  simp only [AgentState.applyStep]
  rw [hb]
  simp only []
  rw [if_pos hmem]

/-- C7 witness: a concrete reachable state — one execution `"a"` polled,
started, and registered, then polled again in a fresh batch — is nodup, within
the ceiling, and the duplicate poll item is skipped without submitting a new
worker. -/
theorem active_set_bounded_and_skip_witness :
    (AgentState.mk ["a"] [{ execId := "a", allowed := true, phase := WPhase.inserted }]
        [{ execId := "a", allowed := true }]).active.Nodup ∧
    (AgentState.mk ["a"] [{ execId := "a", allowed := true, phase := WPhase.inserted }]
        [{ execId := "a", allowed := true }]).active.length ≤ MAX_CONCURRENT_EXECUTIONS ∧
    (AgentState.mk ["a"] [{ execId := "a", allowed := true, phase := WPhase.inserted }]
        [{ execId := "a", allowed := true }]).applyStep AStep.pollItem
      = some (AgentState.mk ["a"]
          [{ execId := "a", allowed := true, phase := WPhase.inserted }] []) :=
  have hr : AgentReachable (AgentState.mk ["a"]
      [{ execId := "a", allowed := true, phase := WPhase.inserted }]
      [{ execId := "a", allowed := true }]) :=
    ⟨[AStep.newBatch [{ execId := "a", allowed := true }], AStep.pollItem,
      AStep.startWorker 0, AStep.stepWorker 0,
      AStep.newBatch [{ execId := "a", allowed := true }]], by decide⟩
  ⟨(active_set_bounded_and_skip _ hr).1,
   (active_set_bounded_and_skip _ hr).2.1,
   (active_set_bounded_and_skip _ hr).2.2 { execId := "a", allowed := true } [] rfl
     (by decide)⟩
